import Mathlib

/-!
Verification of the continuation-passing rewrite pass of
`compiler-core/src/ast/cps.rs`.

The expression/statement grammar itself is parser output and lives outside
the file under verification; its shape is modelled here from the spec's data
model (section 3): each variant carries a source location, statements come in
three kinds, clauses carry patterns/guard plus a `then` expression, and the
pieces this pass never inspects (patterns, guards, type annotations, operator
and kind tags) are represented abstractly.  The rewrite functions themselves
(`to_cps`, `cps_statement`, `cps_fn`, and the per-variant rules) are direct
translations of the Rust source.
-/

set_option maxHeartbeats 1000000

namespace GleamCps

/-- A byte span in the source file.  Modelled from the spec: "Every variant
carries a source location (byte span)". -/
structure SrcSpan where
  start : Nat
  stop : Nat
deriving Repr, DecidableEq

/-- Modelled from the spec: patterns are parser output that this pass only
clones ("binding (pattern + value Expression + the rest of its fields
untouched)"), so they are represented abstractly by a tag. -/
structure Pattern where
  tag : Nat
deriving Repr, DecidableEq

/-- Modelled from the spec: clause guards are cloned untouched, represented
abstractly. -/
structure Guard where
  tag : Nat
deriving Repr, DecidableEq

/-- Modelled from the spec: type annotations (return-type annotation of a
function literal, argument annotations) are cloned untouched, represented
abstractly. -/
structure TypeAst where
  tag : Nat
deriving Repr, DecidableEq

/-- Modelled from the spec: the name forms of a function argument.  `cps_fn`
constructs the `named` form; named forms bind a name, discard forms bind
nothing. -/
inductive ArgNames : Type where
  | discard (name : String) (location : SrcSpan)
  | labelledDiscard (label : String) (labelLocation : SrcSpan) (name : String) (location : SrcSpan)
  | named (name : String) (location : SrcSpan)
  | namedLabelled (name : String) (nameLocation : SrcSpan) (label : String) (labelLocation : SrcSpan)
deriving Repr, DecidableEq

/-- The name an argument binds in the function body: `named`/`namedLabelled`
bind their name, discard forms bind nothing. -/
def ArgNames.boundName : ArgNames → Option String
  | .discard _ _ => none
  | .labelledDiscard _ _ _ _ => none
  | .named n _ => some n
  | .namedLabelled n _ _ _ => some n

/-- A function-literal argument (Rust `UntypedArg`): location, name form and
optional type annotation (the unit `type_` field carries no information and
is omitted). -/
structure UntypedArg where
  location : SrcSpan
  names : ArgNames
  annot : Option TypeAst
deriving Repr, DecidableEq

/-- The name an argument binds, if any. -/
def UntypedArg.boundName (a : UntypedArg) : Option String :=
  a.names.boundName

/-- A non-empty list, as the `vec1::Vec1` type used by the Rust source for
function bodies, block statement sequences and pipeline chains. -/
structure Vec1 (α : Type) where
  head : α
  tail : List α
deriving Repr

/-- The underlying list of a non-empty list. -/
def Vec1.toList (v : Vec1 α) : List α := v.head :: v.tail

/-- `vec1::Vec1::from_vec_push`: append one element to a plain list, giving a
non-empty list. -/
def Vec1.from_vec_push (xs : List α) (x : α) : Vec1 α :=
  match xs with
  | [] => ⟨x, []⟩
  | y :: ys => ⟨y, ys ++ [x]⟩

/-- Helper for `Vec1.split_off_last`: split `x :: xs` into its leading
elements and its last element. -/
def splitLastAux (x : α) (xs : List α) : List α × α :=
  match xs with
  | [] => ([], x)
  | y :: ys =>
      let p := splitLastAux y ys
      (x :: p.1, p.2)

/-- `vec1::Vec1::split_off_last`: all elements but the last, and the last. -/
def Vec1.split_off_last (v : Vec1 α) : List α × α :=
  splitLastAux v.head v.tail

mutual

/-- The untyped expression grammar (Rust `UntypedExpr`), with exactly the
variants dispatched on by `to_cps`.  Non-expression payloads that the pass
never inspects (operator names, todo/function kinds) are abstract `Nat`
tags, per the spec's "operator tags"/"kind tag". -/
inductive UntypedExpr : Type where
  | int (location : SrcSpan) (value : String)
  | float (location : SrcSpan) (value : String)
  | string (location : SrcSpan) (value : String)
  | var (location : SrcSpan) (name : String)
  | block (location : SrcSpan) (statements : Vec1 UntypedStatement)
  | list (location : SrcSpan) (elements : List UntypedExpr) (tail : Option UntypedExpr)
  | tuple (location : SrcSpan) (elems : List UntypedExpr)
  | bitArray (location : SrcSpan) (segments : List BitArraySegment)
  | case (location : SrcSpan) (subjects : List UntypedExpr) (clauses : Option (List Clause))
  | fn (location : SrcSpan) (kind : Nat) (endOfHeadByteIndex : Nat)
      (arguments : List UntypedArg) (body : Vec1 UntypedStatement) (returnAnnot : Option TypeAst)
  | call (location : SrcSpan) (fun_ : UntypedExpr) (arguments : List CallArg)
  | binOp (location : SrcSpan) (name : Nat) (left : UntypedExpr) (right : UntypedExpr)
  | pipeLine (expressions : Vec1 UntypedExpr)
  | fieldAccess (location : SrcSpan) (labelLocation : SrcSpan) (label : String)
      (container : UntypedExpr)
  | tupleIndex (location : SrcSpan) (index : Nat) (tuple : UntypedExpr)
  | recordUpdate (location : SrcSpan) (constructor : UntypedExpr)
      (record : RecordBeingUpdated) (arguments : List UntypedRecordUpdateArg)
  | negateBool (location : SrcSpan) (value : UntypedExpr)
  | negateInt (location : SrcSpan) (value : UntypedExpr)
  | todo (location : SrcSpan) (kind : Nat) (message : Option UntypedExpr)
  | panic (location : SrcSpan) (message : Option UntypedExpr)
  | echo (location : SrcSpan) (expression : Option UntypedExpr)
  | placeholder (location : SrcSpan)

/-- The statement grammar (Rust `Statement`): plain expression, binding
(`Assignment`), and callback-sugar binding (`Use`). -/
inductive UntypedStatement : Type where
  | expression (e : UntypedExpr)
  | assignment (a : Assignment)
  | use_ (u : Use)

/-- A binding statement (Rust `Assignment`): the value expression is the only
field this pass rewrites; pattern, kind and annotation ride along. -/
inductive Assignment : Type where
  | mk (location : SrcSpan) (pattern : Pattern) (kind : Nat) (annot : Option TypeAst)
      (value : UntypedExpr)

/-- A callback-sugar binding statement (Rust `Use`): the call expression is
the only field this pass rewrites; the remaining fields (assignments,
right-hand-side location, ...) are abstract, per the spec's "the rest of its
fields untouched". -/
inductive Use : Type where
  | mk (location : SrcSpan) (rest : Nat) (call : UntypedExpr)

/-- A case clause (Rust `Clause`): patterns, alternative patterns and guard
ride along; the `then` expression (here `thenE`) is rewritten. -/
inductive Clause : Type where
  | mk (location : SrcSpan) (pattern : List Pattern)
      (alternativePatterns : List (List Pattern)) (guard : Option Guard) (thenE : UntypedExpr)

/-- A call argument (Rust `CallArg`): optional label, location, value
expression and optional implicit-origin marker (abstract tag). -/
inductive CallArg : Type where
  | mk (label : Option String) (location : SrcSpan) (value : UntypedExpr)
      (implicit : Option Nat)

/-- A bit-array segment (Rust `BitArraySegment`): a value expression plus a
list of encoding options. -/
inductive BitArraySegment : Type where
  | mk (location : SrcSpan) (value : UntypedExpr) (options : List BitArrayOption)

/-- A bit-array segment option (Rust `BitArrayOption`): the `size` kind
carries a nested size expression; every other kind is cloned untouched and
is represented by an abstract tag, per the spec's "all other option kinds
pass through unchanged". -/
inductive BitArrayOption : Type where
  | size (location : SrcSpan) (shortForm : Bool) (value : UntypedExpr)
  | other (tag : Nat) (location : SrcSpan)

/-- The base record of a record update (Rust `RecordBeingUpdated`). -/
inductive RecordBeingUpdated : Type where
  | mk (base : UntypedExpr) (location : SrcSpan)

/-- One argument of a record update (Rust `UntypedRecordUpdateArg`). -/
inductive UntypedRecordUpdateArg : Type where
  | mk (label : String) (location : SrcSpan) (value : UntypedExpr)

end

mutual

/-- `UntypedExpr::location()`: every variant stores its span directly except
the pipeline, whose span is merged from its first and last expressions.
Modelled from the spec: "source-location tracking arithmetic" is an external
collaborator; the merge takes the start of the first and the end of the
last. -/
def UntypedExpr.location (e : UntypedExpr) : SrcSpan :=
  match e with
  | .int l _ => l
  | .float l _ => l
  | .string l _ => l
  | .var l _ => l
  | .block l _ => l
  | .list l _ _ => l
  | .tuple l _ => l
  | .bitArray l _ => l
  | .case l _ _ => l
  | .fn l _ _ _ _ _ => l
  | .call l _ _ => l
  | .binOp l _ _ _ => l
  | .pipeLine ⟨h, t⟩ =>
      SrcSpan.mk (UntypedExpr.location h).start
        (List.getLastD (locList t) (UntypedExpr.location h)).stop
  | .fieldAccess l _ _ _ => l
  | .tupleIndex l _ _ => l
  | .recordUpdate l _ _ _ => l
  | .negateBool l _ => l
  | .negateInt l _ => l
  | .todo l _ _ => l
  | .panic l _ => l
  | .echo l _ => l
  | .placeholder l => l

/-- The locations of a list of expressions (helper for the pipeline span). -/
def locList (xs : List UntypedExpr) : List SrcSpan :=
  match xs with
  | [] => []
  | y :: ys => UntypedExpr.location y :: locList ys

end

/-- The continuation contract (Rust `type Cont<'a> = fn(&UntypedExpr) ->
UntypedExpr`): a pure unary mapping from expression to expression. -/
abbrev Cont := UntypedExpr → UntypedExpr

/-- The identity continuation `k(x) = x`. -/
def idCont : Cont := fun e => e

/-- The per-call continuation `body_k` built by `cps_fn` (a non-capturing
closure in the Rust source, lifted to the top level): wrap an expression in a
call to the synthesized parameter `go`, at the expression's own location. -/
def body_k : Cont := fun stmt =>
  .call stmt.location (.var stmt.location "go") [.mk none stmt.location stmt none]

/-- The `go_arg` value built by `cps_fn`: the synthesized continuation
parameter, named `go`, located at the function literal's span, with no
annotation. -/
def go_arg (l : SrcSpan) : UntypedArg :=
  { location := l, names := .named "go" l, annot := none }

/-- `cps_atom`: a leaf hands itself straight to the continuation. -/
def cps_atom (expr : UntypedExpr) (k : Cont) : UntypedExpr :=
  k expr

mutual

/-- `to_cps`: the dispatcher, routing an expression to its variant-specific
rewrite rule. -/
def to_cps : UntypedExpr → Cont → UntypedExpr
  -- Atomic expressions
  | .int l v, k => cps_atom (.int l v) k
  | .float l v, k => cps_atom (.float l v) k
  | .string l v, k => cps_atom (.string l v) k
  | .var l n, k => cps_atom (.var l n) k
  -- Block expressions
  | .block l sts, k => cps_block (.block l sts) k
  -- Collection expressions
  | .list l es t, k => cps_list (.list l es t) k
  | .tuple l es, k => cps_tuple (.tuple l es) k
  | .bitArray l segs, k => cps_bit_array (.bitArray l segs) k
  -- Control flow expressions
  | .case l subs cls, k => cps_case (.case l subs cls) k
  | .fn l kd idx args body ret, k => cps_fn (.fn l kd idx args body ret) k
  -- Operation expressions
  | .call l f args, k => cps_call (.call l f args) k
  | .binOp l n a b, k => cps_bin_op (.binOp l n a b) k
  | .pipeLine es, k => cps_pipe_line (.pipeLine es) k
  -- Access expressions
  | .fieldAccess l ll lb c, k => cps_field_access (.fieldAccess l ll lb c) k
  | .tupleIndex l i t, k => cps_tuple_index (.tupleIndex l i t) k
  -- Update expressions
  | .recordUpdate l c r args, k => cps_record_update (.recordUpdate l c r args) k
  -- Unary operations
  | .negateBool l v, k => cps_negate_bool (.negateBool l v) k
  | .negateInt l v, k => cps_negate_int (.negateInt l v) k
  -- Side effect expressions
  | .todo l kd m, k => cps_todo (.todo l kd m) k
  | .panic l m, k => cps_panic (.panic l m) k
  | .echo l x, k => cps_echo (.echo l x) k
  -- Other: placeholder is handled directly
  | .placeholder location, k => k (.placeholder location)
termination_by e _ => (sizeOf e, 1)
decreasing_by all_goals (simp_wf; omega)

/-- `cps_statement`: rewrite the one expression slot of each statement kind,
leaving every other field unchanged. -/
def cps_statement : UntypedStatement → Cont → UntypedStatement
  | .expression e, k => .expression (to_cps e k)
  | .assignment (.mk l p kd an v), k => .assignment (.mk l p kd an (to_cps v k))
  | .use_ (.mk l r c), k => .use_ (.mk l r (to_cps c k))
termination_by s _ => (sizeOf s, 0)
decreasing_by all_goals (simp_wf; omega)

/-- `cps_fn`: the function-literal converter.  Appends the synthesized `go`
parameter, rewrites only the final body statement against `body_k`
(`rewire_final` implements the source's `split_off_last` / `from_vec_push`
pair; see `rewire_final_spec`), rebuilds the literal and hands it to the
outer continuation. -/
def cps_fn : UntypedExpr → Cont → UntypedExpr
  | .fn l kind idx args ⟨h, t⟩ ret, k =>
      k (.fn l kind idx (args ++ [go_arg l]) (rewire_final h t) ret)
  | expr, _ => expr -- unreachable: the dispatcher only sends `Fn` here
termination_by e _ => (sizeOf e, 0)
decreasing_by all_goals (simp_wf; omega)

/-- The body rewiring of `cps_fn`: keep every leading statement untouched and
replace the last statement with `cps_statement last body_k`.  This is the
structural form of `Vec1::split_off_last` followed by
`Vec1::from_vec_push(init, body_cps)` (proved as `rewire_final_spec`). -/
def rewire_final : UntypedStatement → List UntypedStatement → Vec1 UntypedStatement
  | s, [] => ⟨cps_statement s body_k, []⟩
  | s, r :: rs => ⟨s, (rewire_final r rs).head :: (rewire_final r rs).tail⟩
termination_by s rest => (sizeOf s + sizeOf rest, 0)
decreasing_by all_goals (simp_wf; omega)

/-- `cps_list`: rewrite every element and the optional rest-tail, rebuild,
then apply the continuation. -/
def cps_list : UntypedExpr → Cont → UntypedExpr
  | .list l elements tail, k =>
      k (.list l (to_cps_list elements k)
          (match tail with | none => none | some t => some (to_cps t k)))
  | expr, _ => expr -- unreachable: the dispatcher only sends `List` here
termination_by e _ => (sizeOf e, 0)
decreasing_by all_goals (simp_wf; omega)

/-- `cps_call`: rewrite the callee and every argument's value, rebuild, then
apply the continuation. -/
def cps_call : UntypedExpr → Cont → UntypedExpr
  | .call l fun_ arguments, k =>
      k (.call l (to_cps fun_ k) (cps_call_arg_list arguments k))
  | expr, _ => expr -- unreachable: the dispatcher only sends `Call` here
termination_by e _ => (sizeOf e, 0)
decreasing_by all_goals (simp_wf; omega)

/-- Rewrite each `CallArg`'s value, keeping label, location and implicit
marker (`..arg.clone()` in the source). -/
def cps_call_arg_list : List CallArg → Cont → List CallArg
  | [], _ => []
  | .mk lb lo v im :: rest, k => .mk lb lo (to_cps v k) im :: cps_call_arg_list rest k
termination_by args _ => (sizeOf args, 0)
decreasing_by all_goals (simp_wf; omega)

/-- `cps_bin_op`: rewrite both operands, keep the operator tag, rebuild, then
apply the continuation. -/
def cps_bin_op : UntypedExpr → Cont → UntypedExpr
  | .binOp l name left right, k =>
      k (.binOp l name (to_cps left k) (to_cps right k))
  | expr, _ => expr -- unreachable: the dispatcher only sends `BinOp` here
termination_by e _ => (sizeOf e, 0)
decreasing_by all_goals (simp_wf; omega)

/-- `cps_pipe_line`: rewrite every expression of the chain (`Vec1::mapped`),
rebuild, then apply the continuation. -/
def cps_pipe_line : UntypedExpr → Cont → UntypedExpr
  | .pipeLine ⟨h, t⟩, k => k (.pipeLine ⟨to_cps h k, to_cps_list t k⟩)
  | expr, _ => expr -- unreachable: the dispatcher only sends `PipeLine` here
termination_by e _ => (sizeOf e, 0)
decreasing_by all_goals (simp_wf; omega)

/-- `cps_case`: rewrite every subject and every clause's `then` expression
(clauses keep their patterns and guards), rebuild, then apply the
continuation. -/
def cps_case : UntypedExpr → Cont → UntypedExpr
  | .case l subjects clauses, k =>
      k (.case l (to_cps_list subjects k)
          (match clauses with | none => none | some cs => some (cps_clause_list cs k)))
  | expr, _ => expr -- unreachable: the dispatcher only sends `Case` here
termination_by e _ => (sizeOf e, 0)
decreasing_by all_goals (simp_wf; omega)

/-- Rewrite each clause's `then` expression, cloning the rest of the
clause. -/
def cps_clause_list : List Clause → Cont → List Clause
  | [], _ => []
  | .mk l p ap g th :: rest, k => .mk l p ap g (to_cps th k) :: cps_clause_list rest k
termination_by cs _ => (sizeOf cs, 0)
decreasing_by all_goals (simp_wf; omega)

/-- `cps_field_access`: rewrite the container, keep label and label location,
rebuild, then apply the continuation. -/
def cps_field_access : UntypedExpr → Cont → UntypedExpr
  | .fieldAccess l ll lb container, k =>
      k (.fieldAccess l ll lb (to_cps container k))
  | expr, _ => expr -- unreachable: the dispatcher only sends `FieldAccess` here
termination_by e _ => (sizeOf e, 0)
decreasing_by all_goals (simp_wf; omega)

/-- `cps_tuple`: rewrite every element, rebuild, then apply the
continuation. -/
def cps_tuple : UntypedExpr → Cont → UntypedExpr
  | .tuple l elems, k => k (.tuple l (to_cps_list elems k))
  | expr, _ => expr -- unreachable: the dispatcher only sends `Tuple` here
termination_by e _ => (sizeOf e, 0)
decreasing_by all_goals (simp_wf; omega)

/-- `cps_tuple_index`: rewrite the indexed tuple, keep the index, rebuild,
then apply the continuation. -/
def cps_tuple_index : UntypedExpr → Cont → UntypedExpr
  | .tupleIndex l idx tuple, k => k (.tupleIndex l idx (to_cps tuple k))
  | expr, _ => expr -- unreachable: the dispatcher only sends `TupleIndex` here
termination_by e _ => (sizeOf e, 0)
decreasing_by all_goals (simp_wf; omega)

/-- `cps_block`: rewrite every statement of the sequence with the same
continuation (`Vec1::mapped` over `cps_statement`), rebuild, then apply the
continuation. -/
def cps_block : UntypedExpr → Cont → UntypedExpr
  | .block l ⟨h, t⟩, k => k (.block l ⟨cps_statement h k, cps_statement_list t k⟩)
  | expr, _ => expr -- unreachable: the dispatcher only sends `Block` here
termination_by e _ => (sizeOf e, 0)
decreasing_by all_goals (simp_wf; omega)

/-- Rewrite every statement in a list with the same continuation. -/
def cps_statement_list : List UntypedStatement → Cont → List UntypedStatement
  | [], _ => []
  | s :: rest, k => cps_statement s k :: cps_statement_list rest k
termination_by ss _ => (sizeOf ss, 0)
decreasing_by all_goals (simp_wf; omega)

/-- `cps_todo`: rewrite the optional message, keep the kind, rebuild, then
apply the continuation. -/
def cps_todo : UntypedExpr → Cont → UntypedExpr
  | .todo l kind message, k =>
      k (.todo l kind (match message with | none => none | some m => some (to_cps m k)))
  | expr, _ => expr -- unreachable: the dispatcher only sends `Todo` here
termination_by e _ => (sizeOf e, 0)
decreasing_by all_goals (simp_wf; omega)

/-- `cps_panic`: rewrite the optional message, rebuild, then apply the
continuation. -/
def cps_panic : UntypedExpr → Cont → UntypedExpr
  | .panic l message, k =>
      k (.panic l (match message with | none => none | some m => some (to_cps m k)))
  | expr, _ => expr -- unreachable: the dispatcher only sends `Panic` here
termination_by e _ => (sizeOf e, 0)
decreasing_by all_goals (simp_wf; omega)

/-- `cps_echo`: rewrite the optional echoed expression, rebuild, then apply
the continuation. -/
def cps_echo : UntypedExpr → Cont → UntypedExpr
  | .echo l expression, k =>
      k (.echo l (match expression with | none => none | some x => some (to_cps x k)))
  | expr, _ => expr -- unreachable: the dispatcher only sends `Echo` here
termination_by e _ => (sizeOf e, 0)
decreasing_by all_goals (simp_wf; omega)

/-- `cps_bit_array_option`: a `size` option has its nested size expression
rewritten; every other option kind is cloned untouched. -/
def cps_bit_array_option : BitArrayOption → Cont → BitArrayOption
  | .size l sf value, k => .size l sf (to_cps value k)
  | .other tag l, _ => .other tag l
termination_by o _ => (sizeOf o, 0)
decreasing_by all_goals (simp_wf; omega)

/-- Rewrite every option of a segment. -/
def cps_option_list : List BitArrayOption → Cont → List BitArrayOption
  | [], _ => []
  | o :: rest, k => cps_bit_array_option o k :: cps_option_list rest k
termination_by os _ => (sizeOf os, 0)
decreasing_by all_goals (simp_wf; omega)

/-- `cps_bit_array`: rewrite every segment's value and options, rebuild, then
apply the continuation. -/
def cps_bit_array : UntypedExpr → Cont → UntypedExpr
  | .bitArray l segments, k => k (.bitArray l (cps_segment_list segments k))
  | expr, _ => expr -- unreachable: the dispatcher only sends `BitArray` here
termination_by e _ => (sizeOf e, 0)
decreasing_by all_goals (simp_wf; omega)

/-- Rewrite each segment's value expression and each of its options, keeping
its other fields (`..segment.clone()` in the source). -/
def cps_segment_list : List BitArraySegment → Cont → List BitArraySegment
  | [], _ => []
  | .mk l v os :: rest, k => .mk l (to_cps v k) (cps_option_list os k) :: cps_segment_list rest k
termination_by segs _ => (sizeOf segs, 0)
decreasing_by all_goals (simp_wf; omega)

/-- `cps_record_being_updated`: rewrite the base record expression, keep the
location. -/
def cps_record_being_updated : RecordBeingUpdated → Cont → RecordBeingUpdated
  | .mk base l, k => .mk (to_cps base k) l
termination_by r _ => (sizeOf r, 0)
decreasing_by all_goals (simp_wf; omega)

/-- `cps_record_update_arg`: rewrite the argument's value, keep label and
location. -/
def cps_record_update_arg : UntypedRecordUpdateArg → Cont → UntypedRecordUpdateArg
  | .mk lb l v, k => .mk lb l (to_cps v k)
termination_by a _ => (sizeOf a, 0)
decreasing_by all_goals (simp_wf; omega)

/-- Rewrite every record-update argument. -/
def cps_upd_arg_list : List UntypedRecordUpdateArg → Cont → List UntypedRecordUpdateArg
  | [], _ => []
  | a :: rest, k => cps_record_update_arg a k :: cps_upd_arg_list rest k
termination_by args _ => (sizeOf args, 0)
decreasing_by all_goals (simp_wf; omega)

/-- `cps_record_update`: rewrite the constructor, the base record and every
update argument, rebuild, then apply the continuation. -/
def cps_record_update : UntypedExpr → Cont → UntypedExpr
  | .recordUpdate l constructor record arguments, k =>
      k (.recordUpdate l (to_cps constructor k) (cps_record_being_updated record k)
          (cps_upd_arg_list arguments k))
  | expr, _ => expr -- unreachable: the dispatcher only sends `RecordUpdate` here
termination_by e _ => (sizeOf e, 0)
decreasing_by all_goals (simp_wf; omega)

/-- `cps_negate_bool`: rewrite the negated value, rebuild, then apply the
continuation. -/
def cps_negate_bool : UntypedExpr → Cont → UntypedExpr
  | .negateBool l value, k => k (.negateBool l (to_cps value k))
  | expr, _ => expr -- unreachable: the dispatcher only sends `NegateBool` here
termination_by e _ => (sizeOf e, 0)
decreasing_by all_goals (simp_wf; omega)

/-- `cps_negate_int`: rewrite the negated value, rebuild, then apply the
continuation. -/
def cps_negate_int : UntypedExpr → Cont → UntypedExpr
  | .negateInt l value, k => k (.negateInt l (to_cps value k))
  | expr, _ => expr -- unreachable: the dispatcher only sends `NegateInt` here
termination_by e _ => (sizeOf e, 0)
decreasing_by all_goals (simp_wf; omega)

/-- Rewrite every expression in a list with the same continuation (the
`iter().map(|e| to_cps(e, k))` pattern of the source). -/
def to_cps_list : List UntypedExpr → Cont → List UntypedExpr
  | [], _ => []
  | e :: rest, k => to_cps e k :: to_cps_list rest k
termination_by es _ => (sizeOf es, 0)
decreasing_by all_goals (simp_wf; omega)

end

/-- The function literal built by `cps_fn` before the outer continuation is
applied (the `fn_expr` local of the source, factored out so claims can speak
about it): same location, kind, head byte index and return annotation, the
argument list extended with `go_arg`, and the body with only its final
statement rewired. -/
def cps_fn_built (l : SrcSpan) (kind idx : Nat) (args : List UntypedArg)
    (h : UntypedStatement) (t : List UntypedStatement) (ret : Option TypeAst) : UntypedExpr :=
  .fn l kind idx (args ++ [go_arg l]) (rewire_final h t) ret


/-- The arguments of a function literal (empty for other variants). -/
def UntypedExpr.fnArguments : UntypedExpr → List UntypedArg
  | .fn _ _ _ args _ _ => args
  | _ => []

/-- The body statements of a function literal, as a plain list (empty for
other variants). -/
def UntypedExpr.fnBodyList : UntypedExpr → List UntypedStatement
  | .fn _ _ _ _ body _ => body.toList
  | _ => []

/-- Whether an expression is one of the atomic variants handled by
`cps_atom`, or the placeholder (also handed directly to the continuation). -/
def isAtomic : UntypedExpr → Bool
  | .int _ _ | .float _ _ | .string _ _ | .var _ _ | .placeholder _ => true
  | _ => false

/-- Whether an expression is one of the composite variants subject to the
general rewrite rule (everything except the atoms, the placeholder, and the
function literal, whose converter performs a structural change). -/
def Composite : UntypedExpr → Bool
  | .block _ _ | .list _ _ _ | .tuple _ _ | .bitArray _ _ | .case _ _ _ | .call _ _ _
  | .binOp _ _ _ _ | .pipeLine _ | .fieldAccess _ _ _ _ | .tupleIndex _ _ _
  | .recordUpdate _ _ _ _ | .negateBool _ _ | .negateInt _ _ | .todo _ _ _
  | .panic _ _ | .echo _ _ => true
  | _ => false

/-- The node each composite rule builds before the final application of the
continuation (the `let`-bound node of each `cps_*` rule, factored out so the
shape-preservation claim can speak about it).  On atoms, the placeholder and
function literals it is not meaningful and returns the input. -/
def rebuilt_node : UntypedExpr → Cont → UntypedExpr
  | .block l ⟨h, t⟩, k => .block l ⟨cps_statement h k, cps_statement_list t k⟩
  | .list l es t, k =>
      .list l (to_cps_list es k) (match t with | none => none | some x => some (to_cps x k))
  | .tuple l es, k => .tuple l (to_cps_list es k)
  | .bitArray l segs, k => .bitArray l (cps_segment_list segs k)
  | .case l subs cls, k =>
      .case l (to_cps_list subs k)
        (match cls with | none => none | some cs => some (cps_clause_list cs k))
  | .call l f args, k => .call l (to_cps f k) (cps_call_arg_list args k)
  | .binOp l n a b, k => .binOp l n (to_cps a k) (to_cps b k)
  | .pipeLine ⟨h, t⟩, k => .pipeLine ⟨to_cps h k, to_cps_list t k⟩
  | .fieldAccess l ll lb c, k => .fieldAccess l ll lb (to_cps c k)
  | .tupleIndex l i t, k => .tupleIndex l i (to_cps t k)
  | .recordUpdate l c r args, k =>
      .recordUpdate l (to_cps c k) (cps_record_being_updated r k) (cps_upd_arg_list args k)
  | .negateBool l v, k => .negateBool l (to_cps v k)
  | .negateInt l v, k => .negateInt l (to_cps v k)
  | .todo l kd m, k => .todo l kd (match m with | none => none | some x => some (to_cps x k))
  | .panic l m, k => .panic l (match m with | none => none | some x => some (to_cps x k))
  | .echo l x, k => .echo l (match x with | none => none | some y => some (to_cps y k))
  | e, _ => e

/-- The statement kind: 0 for a plain expression, 1 for a binding, 2 for a
callback-sugar binding. -/
def UntypedStatement.kindTag : UntypedStatement → Nat
  | .expression _ => 0
  | .assignment _ => 1
  | .use_ _ => 2

/-- The label of a call argument. -/
def CallArg.argLabel : CallArg → Option String
  | .mk lb _ _ _ => lb

/-- The location of a call argument. -/
def CallArg.argLocation : CallArg → SrcSpan
  | .mk _ lo _ _ => lo

/-- The non-expression frame of a clause: location, patterns, alternative
patterns and guard — everything except its `then` expression. -/
def Clause.frame : Clause → SrcSpan × List Pattern × List (List Pattern) × Option Guard
  | .mk l p ap g _ => (l, p, ap, g)

/-- The location of a bit-array segment. -/
def BitArraySegment.segLocation : BitArraySegment → SrcSpan
  | .mk l _ _ => l

/-- The kind of a bit-array option: 0 for `size`, `tag + 1` for any other
kind. -/
def BitArrayOption.kindTag : BitArrayOption → Nat
  | .size _ _ _ => 0
  | .other tag _ => tag + 1

/-- The kinds of all options of a segment. -/
def BitArraySegment.optionKinds : BitArraySegment → List Nat
  | .mk _ _ os => os.map BitArrayOption.kindTag

/-- The location of the base record of a record update. -/
def RecordBeingUpdated.updLocation : RecordBeingUpdated → SrcSpan
  | .mk _ l => l

/-- The label of a record-update argument. -/
def UntypedRecordUpdateArg.updLabel : UntypedRecordUpdateArg → String
  | .mk lb _ _ => lb

/-- The location of a record-update argument. -/
def UntypedRecordUpdateArg.updArgLocation : UntypedRecordUpdateArg → SrcSpan
  | .mk _ l _ => l

/-- Shape equality of two expressions, per the shape-preservation claim: the
same variant tag, the same non-expression fields (location, labels and label
locations, indices, operator and kind tags, option kinds, statement kinds,
clause frames) and the same number of child expression slots (list lengths,
presence of optional children).  Only composite variants are compared;
everything else is `False`. -/
def sameShape : UntypedExpr → UntypedExpr → Prop
  | .block l sts, .block l' sts' =>
      l = l' ∧ sts.toList.length = sts'.toList.length ∧
        sts.toList.map UntypedStatement.kindTag = sts'.toList.map UntypedStatement.kindTag
  | .list l es t, .list l' es' t' => l = l' ∧ es.length = es'.length ∧ t.isSome = t'.isSome
  | .tuple l es, .tuple l' es' => l = l' ∧ es.length = es'.length
  | .bitArray l segs, .bitArray l' segs' =>
      l = l' ∧ segs.length = segs'.length ∧
        segs.map BitArraySegment.segLocation = segs'.map BitArraySegment.segLocation ∧
        segs.map BitArraySegment.optionKinds = segs'.map BitArraySegment.optionKinds
  | .case l subs cls, .case l' subs' cls' =>
      l = l' ∧ subs.length = subs'.length ∧
        (match cls, cls' with
          | none, none => True
          | some cs, some cs' =>
              cs.length = cs'.length ∧ cs.map Clause.frame = cs'.map Clause.frame
          | _, _ => False)
  | .call l _ args, .call l' _ args' =>
      l = l' ∧ args.length = args'.length ∧
        args.map CallArg.argLabel = args'.map CallArg.argLabel ∧
        args.map CallArg.argLocation = args'.map CallArg.argLocation
  | .binOp l n _ _, .binOp l' n' _ _ => l = l' ∧ n = n'
  | .pipeLine es, .pipeLine es' => es.toList.length = es'.toList.length
  | .fieldAccess l ll lb _, .fieldAccess l' ll' lb' _ => l = l' ∧ ll = ll' ∧ lb = lb'
  | .tupleIndex l i _, .tupleIndex l' i' _ => l = l' ∧ i = i'
  | .recordUpdate l _ r args, .recordUpdate l' _ r' args' =>
      l = l' ∧ r.updLocation = r'.updLocation ∧ args.length = args'.length ∧
        args.map UntypedRecordUpdateArg.updLabel = args'.map UntypedRecordUpdateArg.updLabel ∧
        args.map UntypedRecordUpdateArg.updArgLocation
          = args'.map UntypedRecordUpdateArg.updArgLocation
  | .negateBool l _, .negateBool l' _ => l = l'
  | .negateInt l _, .negateInt l' _ => l = l'
  | .todo l kd m, .todo l' kd' m' => l = l' ∧ kd = kd' ∧ m.isSome = m'.isSome
  | .panic l m, .panic l' m' => l = l' ∧ m.isSome = m'.isSome
  | .echo l x, .echo l' x' => l = l' ∧ x.isSome = x'.isSome
  | _, _ => False

mutual

/-- Modelled from the spec's continuation-purity property: the transform that
the pass is claimed to perform under the identity continuation — the
identity on every expression variant, except that every function-literal
subexpression still undergoes the function-literal converter's structural
change (the appended `go` parameter and the rewiring of the final body
statement against `body_k`). -/
def fnconv : UntypedExpr → UntypedExpr
  | .int l v => .int l v
  | .float l v => .float l v
  | .string l v => .string l v
  | .var l n => .var l n
  | .block l ⟨h, t⟩ => .block l ⟨fnconv_statement h, fnconv_statement_list t⟩
  | .list l es t =>
      .list l (fnconv_list es) (match t with | none => none | some x => some (fnconv x))
  | .tuple l es => .tuple l (fnconv_list es)
  | .bitArray l segs => .bitArray l (fnconv_segment_list segs)
  | .case l subs cls =>
      .case l (fnconv_list subs)
        (match cls with | none => none | some cs => some (fnconv_clause_list cs))
  | .fn l kd idx args ⟨h, t⟩ ret => .fn l kd idx (args ++ [go_arg l]) (rewire_final h t) ret
  | .call l f args => .call l (fnconv f) (fnconv_call_arg_list args)
  | .binOp l n a b => .binOp l n (fnconv a) (fnconv b)
  | .pipeLine ⟨h, t⟩ => .pipeLine ⟨fnconv h, fnconv_list t⟩
  | .fieldAccess l ll lb c => .fieldAccess l ll lb (fnconv c)
  | .tupleIndex l i t => .tupleIndex l i (fnconv t)
  | .recordUpdate l c r args =>
      .recordUpdate l (fnconv c) (fnconv_record r) (fnconv_upd_arg_list args)
  | .negateBool l v => .negateBool l (fnconv v)
  | .negateInt l v => .negateInt l (fnconv v)
  | .todo l kd m => .todo l kd (match m with | none => none | some x => some (fnconv x))
  | .panic l m => .panic l (match m with | none => none | some x => some (fnconv x))
  | .echo l x => .echo l (match x with | none => none | some y => some (fnconv y))
  | .placeholder l => .placeholder l

/-- `fnconv` on a statement: convert the statement's one expression slot. -/
def fnconv_statement : UntypedStatement → UntypedStatement
  | .expression e => .expression (fnconv e)
  | .assignment (.mk l p kd an v) => .assignment (.mk l p kd an (fnconv v))
  | .use_ (.mk l r c) => .use_ (.mk l r (fnconv c))

/-- `fnconv` on a list of statements. -/
def fnconv_statement_list : List UntypedStatement → List UntypedStatement
  | [] => []
  | s :: rest => fnconv_statement s :: fnconv_statement_list rest

/-- `fnconv` on a list of expressions. -/
def fnconv_list : List UntypedExpr → List UntypedExpr
  | [] => []
  | e :: rest => fnconv e :: fnconv_list rest

/-- `fnconv` on call arguments. -/
def fnconv_call_arg_list : List CallArg → List CallArg
  | [] => []
  | .mk lb lo v im :: rest => .mk lb lo (fnconv v) im :: fnconv_call_arg_list rest

/-- `fnconv` on clauses. -/
def fnconv_clause_list : List Clause → List Clause
  | [] => []
  | .mk l p ap g th :: rest => .mk l p ap g (fnconv th) :: fnconv_clause_list rest

/-- `fnconv` on bit-array segments. -/
def fnconv_segment_list : List BitArraySegment → List BitArraySegment
  | [] => []
  | .mk l v os :: rest => .mk l (fnconv v) (fnconv_option_list os) :: fnconv_segment_list rest

/-- `fnconv` on bit-array options. -/
def fnconv_option_list : List BitArrayOption → List BitArrayOption
  | [] => []
  | .size l sf v :: rest => .size l sf (fnconv v) :: fnconv_option_list rest
  | .other tag l :: rest => .other tag l :: fnconv_option_list rest

/-- `fnconv` on the base record of a record update. -/
def fnconv_record : RecordBeingUpdated → RecordBeingUpdated
  | .mk base l => .mk (fnconv base) l

/-- `fnconv` on record-update arguments. -/
def fnconv_upd_arg_list : List UntypedRecordUpdateArg → List UntypedRecordUpdateArg
  | [] => []
  | .mk lb l v :: rest => .mk lb l (fnconv v) :: fnconv_upd_arg_list rest

end

/-! ### Supporting lemmas -/

/-- `rewire_final` is exactly the source's `split_off_last` followed by
`cps_statement` on the last statement and `from_vec_push` of the untouched
leading statements. -/
theorem rewire_final_spec (s : UntypedStatement) (rest : List UntypedStatement) :
    rewire_final s rest =
      Vec1.from_vec_push (Vec1.split_off_last ⟨s, rest⟩).1
        (cps_statement (Vec1.split_off_last ⟨s, rest⟩).2 body_k) := by
  induction rest generalizing s with
  | nil => simp [rewire_final, Vec1.split_off_last, splitLastAux, Vec1.from_vec_push]
  | cons r rs ih =>
      simp only [rewire_final, Vec1.split_off_last, splitLastAux] at *
      simp [ih r, Vec1.from_vec_push]
      cases hrs : splitLastAux r rs with
      | mk init last =>
          cases init with
          | nil => simp [Vec1.from_vec_push]
          | cons i is => simp [Vec1.from_vec_push]

/-- The leading part of `split_off_last` is everything but the last
element. -/
theorem splitLastAux_fst (s : α) (rest : List α) :
    (splitLastAux s rest).1 = (s :: rest).dropLast := by
  induction rest generalizing s with
  | nil => simp [splitLastAux]
  | cons r rs ih => simp [splitLastAux, ih r]

/-- The statement list built by `rewire_final`: the untouched leading
statements followed by the rewritten last statement. -/
theorem rewire_final_toList (s : UntypedStatement) (rest : List UntypedStatement) :
    (rewire_final s rest).toList =
      (s :: rest).dropLast ++ [cps_statement (splitLastAux s rest).2 body_k] := by
  induction rest generalizing s with
  | nil => simp [rewire_final, splitLastAux, Vec1.toList]
  | cons r rs ih => simp [rewire_final, splitLastAux, Vec1.toList] at *; simp [ih r]

/-- The statement walker of `cps_block` is a plain map of `cps_statement`
over the statement list. -/
theorem cps_statement_list_map (ss : List UntypedStatement) (k : Cont) :
    cps_statement_list ss k = ss.map (fun s => cps_statement s k) := by
  induction ss with
  | nil => simp [cps_statement_list]
  | cons s rest ih => simp [cps_statement_list, ih]

/-- Rewriting a statement list preserves its length. -/
theorem cps_statement_list_length (ss : List UntypedStatement) (k : Cont) :
    (cps_statement_list ss k).length = ss.length := by
  induction ss with
  | nil => simp [cps_statement_list]
  | cons s rest ih => simp [cps_statement_list, ih]

/-- Rewriting a list of expressions preserves its length. -/
theorem to_cps_list_length (es : List UntypedExpr) (k : Cont) :
    (to_cps_list es k).length = es.length := by
  induction es with
  | nil => simp [to_cps_list]
  | cons e rest ih => simp [to_cps_list, ih]

/-- Rewriting a statement preserves its kind. -/
theorem cps_statement_kindTag (s : UntypedStatement) (k : Cont) :
    (cps_statement s k).kindTag = s.kindTag := by
  cases s with
  | expression e => simp [cps_statement, UntypedStatement.kindTag]
  | assignment a => cases a; simp [cps_statement, UntypedStatement.kindTag]
  | use_ u => cases u; simp [cps_statement, UntypedStatement.kindTag]

/-- Rewriting a statement list preserves the statements' kinds. -/
theorem cps_statement_list_kindTag (ss : List UntypedStatement) (k : Cont) :
    (cps_statement_list ss k).map UntypedStatement.kindTag
      = ss.map UntypedStatement.kindTag := by
  induction ss with
  | nil => simp [cps_statement_list]
  | cons s rest ih => simp [cps_statement_list, ih, cps_statement_kindTag]

/-- Rewriting call arguments preserves their labels. -/
theorem cps_call_arg_list_labels (args : List CallArg) (k : Cont) :
    (cps_call_arg_list args k).map CallArg.argLabel = args.map CallArg.argLabel := by
  induction args with
  | nil => simp [cps_call_arg_list]
  | cons a rest ih => cases a; simp [cps_call_arg_list, ih, CallArg.argLabel]

/-- Rewriting call arguments preserves their locations. -/
theorem cps_call_arg_list_locs (args : List CallArg) (k : Cont) :
    (cps_call_arg_list args k).map CallArg.argLocation = args.map CallArg.argLocation := by
  induction args with
  | nil => simp [cps_call_arg_list]
  | cons a rest ih => cases a; simp [cps_call_arg_list, ih, CallArg.argLocation]

/-- Rewriting call arguments preserves their number. -/
theorem cps_call_arg_list_length (args : List CallArg) (k : Cont) :
    (cps_call_arg_list args k).length = args.length := by
  induction args with
  | nil => simp [cps_call_arg_list]
  | cons a rest ih => cases a; simp [cps_call_arg_list, ih]

/-- Rewriting clauses preserves their frames (location, patterns,
alternative patterns, guard). -/
theorem cps_clause_list_frames (cs : List Clause) (k : Cont) :
    (cps_clause_list cs k).map Clause.frame = cs.map Clause.frame := by
  induction cs with
  | nil => simp [cps_clause_list]
  | cons c rest ih => cases c; simp [cps_clause_list, ih, Clause.frame]

/-- Rewriting clauses preserves their number. -/
theorem cps_clause_list_length (cs : List Clause) (k : Cont) :
    (cps_clause_list cs k).length = cs.length := by
  induction cs with
  | nil => simp [cps_clause_list]
  | cons c rest ih => cases c; simp [cps_clause_list, ih]

/-- Rewriting a bit-array option preserves its kind. -/
theorem cps_bit_array_option_kindTag (o : BitArrayOption) (k : Cont) :
    (cps_bit_array_option o k).kindTag = o.kindTag := by
  cases o with
  | size l sf v => simp [cps_bit_array_option, BitArrayOption.kindTag]
  | other tag l => simp [cps_bit_array_option, BitArrayOption.kindTag]

/-- Rewriting a segment's options preserves their kinds. -/
theorem cps_option_list_kinds (os : List BitArrayOption) (k : Cont) :
    (cps_option_list os k).map BitArrayOption.kindTag = os.map BitArrayOption.kindTag := by
  induction os with
  | nil => simp [cps_option_list]
  | cons o rest ih => simp [cps_option_list, ih, cps_bit_array_option_kindTag]

/-- Rewriting segments preserves their number. -/
theorem cps_segment_list_length (segs : List BitArraySegment) (k : Cont) :
    (cps_segment_list segs k).length = segs.length := by
  induction segs with
  | nil => simp [cps_segment_list]
  | cons seg rest ih => cases seg; simp [cps_segment_list, ih]

/-- Rewriting segments preserves their locations. -/
theorem cps_segment_list_locs (segs : List BitArraySegment) (k : Cont) :
    (cps_segment_list segs k).map BitArraySegment.segLocation
      = segs.map BitArraySegment.segLocation := by
  induction segs with
  | nil => simp [cps_segment_list]
  | cons seg rest ih => cases seg; simp [cps_segment_list, ih, BitArraySegment.segLocation]

/-- Rewriting segments preserves the kinds of their options. -/
theorem cps_segment_list_optionKinds (segs : List BitArraySegment) (k : Cont) :
    (cps_segment_list segs k).map BitArraySegment.optionKinds
      = segs.map BitArraySegment.optionKinds := by
  induction segs with
  | nil => simp [cps_segment_list]
  | cons seg rest ih =>
      cases seg
      simp [cps_segment_list, ih, BitArraySegment.optionKinds, cps_option_list_kinds]

/-- Rewriting record-update arguments preserves their number. -/
theorem cps_upd_arg_list_length (args : List UntypedRecordUpdateArg) (k : Cont) :
    (cps_upd_arg_list args k).length = args.length := by
  induction args with
  | nil => simp [cps_upd_arg_list]
  | cons a rest ih => cases a; simp [cps_upd_arg_list, cps_record_update_arg, ih]

/-- Rewriting record-update arguments preserves their labels. -/
theorem cps_upd_arg_list_labels (args : List UntypedRecordUpdateArg) (k : Cont) :
    (cps_upd_arg_list args k).map UntypedRecordUpdateArg.updLabel
      = args.map UntypedRecordUpdateArg.updLabel := by
  induction args with
  | nil => simp [cps_upd_arg_list]
  | cons a rest ih =>
      cases a
      simp [cps_upd_arg_list, cps_record_update_arg, ih, UntypedRecordUpdateArg.updLabel]

/-- Rewriting record-update arguments preserves their locations. -/
theorem cps_upd_arg_list_locs (args : List UntypedRecordUpdateArg) (k : Cont) :
    (cps_upd_arg_list args k).map UntypedRecordUpdateArg.updArgLocation
      = args.map UntypedRecordUpdateArg.updArgLocation := by
  induction args with
  | nil => simp [cps_upd_arg_list]
  | cons a rest ih =>
      cases a
      simp [cps_upd_arg_list, cps_record_update_arg, ih, UntypedRecordUpdateArg.updArgLocation]

/-- The base-record rewrite preserves the record's location. -/
theorem cps_record_being_updated_loc (r : RecordBeingUpdated) (k : Cont) :
    (cps_record_being_updated r k).updLocation = r.updLocation := by
  cases r; simp [cps_record_being_updated, RecordBeingUpdated.updLocation]

mutual

/-- Under the identity continuation the dispatcher performs exactly the
function-literal-conversion-only transform `fnconv`. -/
theorem to_cps_id (e : UntypedExpr) : to_cps e idCont = fnconv e := by
  cases e with
  | int l v => simp [to_cps, cps_atom, fnconv, idCont]
  | float l v => simp [to_cps, cps_atom, fnconv, idCont]
  | string l v => simp [to_cps, cps_atom, fnconv, idCont]
  | var l n => simp [to_cps, cps_atom, fnconv, idCont]
  | block l sts =>
      cases sts with
      | mk h t =>
          simp [to_cps, cps_block, fnconv, idCont, cps_statement_id h,
            cps_statement_list_id t]
  | list l es t =>
      cases t with
      | none => simp [to_cps, cps_list, fnconv, idCont, to_cps_list_id es]
      | some x => simp [to_cps, cps_list, fnconv, idCont, to_cps_list_id es, to_cps_id x]
  | tuple l es => simp [to_cps, cps_tuple, fnconv, idCont, to_cps_list_id es]
  | bitArray l segs => simp [to_cps, cps_bit_array, fnconv, idCont, cps_segment_list_id segs]
  | case l subs cls =>
      cases cls with
      | none => simp [to_cps, cps_case, fnconv, idCont, to_cps_list_id subs]
      | some cs =>
          simp [to_cps, cps_case, fnconv, idCont, to_cps_list_id subs, cps_clause_list_id cs]
  | fn l kd idx args body ret =>
      cases body with
      | mk h t => simp [to_cps, cps_fn, fnconv, idCont]
  | call l f args =>
      simp [to_cps, cps_call, fnconv, idCont, to_cps_id f, cps_call_arg_list_id args]
  | binOp l n a b => simp [to_cps, cps_bin_op, fnconv, idCont, to_cps_id a, to_cps_id b]
  | pipeLine es =>
      cases es with
      | mk h t => simp [to_cps, cps_pipe_line, fnconv, idCont, to_cps_id h, to_cps_list_id t]
  | fieldAccess l ll lb c => simp [to_cps, cps_field_access, fnconv, idCont, to_cps_id c]
  | tupleIndex l i t => simp [to_cps, cps_tuple_index, fnconv, idCont, to_cps_id t]
  | recordUpdate l c r args =>
      simp [to_cps, cps_record_update, fnconv, idCont, to_cps_id c, cps_record_id r,
        cps_upd_arg_list_id args]
  | negateBool l v => simp [to_cps, cps_negate_bool, fnconv, idCont, to_cps_id v]
  | negateInt l v => simp [to_cps, cps_negate_int, fnconv, idCont, to_cps_id v]
  | todo l kd m =>
      cases m with
      | none => simp [to_cps, cps_todo, fnconv, idCont]
      | some x => simp [to_cps, cps_todo, fnconv, idCont, to_cps_id x]
  | panic l m =>
      cases m with
      | none => simp [to_cps, cps_panic, fnconv, idCont]
      | some x => simp [to_cps, cps_panic, fnconv, idCont, to_cps_id x]
  | echo l x =>
      cases x with
      | none => simp [to_cps, cps_echo, fnconv, idCont]
      | some y => simp [to_cps, cps_echo, fnconv, idCont, to_cps_id y]
  | placeholder l => simp [to_cps, fnconv, idCont]

/-- Statement version of `to_cps_id`. -/
theorem cps_statement_id (s : UntypedStatement) :
    cps_statement s idCont = fnconv_statement s := by
  cases s with
  | expression e => simp [cps_statement, fnconv_statement, to_cps_id e]
  | assignment a =>
      cases a with
      | mk l p kd an v => simp [cps_statement, fnconv_statement, to_cps_id v]
  | use_ u =>
      cases u with
      | mk l r c => simp [cps_statement, fnconv_statement, to_cps_id c]

/-- Statement-list version of `to_cps_id`. -/
theorem cps_statement_list_id (ss : List UntypedStatement) :
    cps_statement_list ss idCont = fnconv_statement_list ss := by
  cases ss with
  | nil => simp [cps_statement_list, fnconv_statement_list]
  | cons s rest =>
      simp [cps_statement_list, fnconv_statement_list, cps_statement_id s,
        cps_statement_list_id rest]

/-- Expression-list version of `to_cps_id`. -/
theorem to_cps_list_id (es : List UntypedExpr) : to_cps_list es idCont = fnconv_list es := by
  cases es with
  | nil => simp [to_cps_list, fnconv_list]
  | cons e rest => simp [to_cps_list, fnconv_list, to_cps_id e, to_cps_list_id rest]

/-- Call-argument version of `to_cps_id`. -/
theorem cps_call_arg_list_id (args : List CallArg) :
    cps_call_arg_list args idCont = fnconv_call_arg_list args := by
  cases args with
  | nil => simp [cps_call_arg_list, fnconv_call_arg_list]
  | cons a rest =>
      cases a with
      | mk lb lo v im =>
          simp [cps_call_arg_list, fnconv_call_arg_list, to_cps_id v,
            cps_call_arg_list_id rest]

/-- Clause version of `to_cps_id`. -/
theorem cps_clause_list_id (cs : List Clause) :
    cps_clause_list cs idCont = fnconv_clause_list cs := by
  cases cs with
  | nil => simp [cps_clause_list, fnconv_clause_list]
  | cons c rest =>
      cases c with
      | mk l p ap g th =>
          simp [cps_clause_list, fnconv_clause_list, to_cps_id th, cps_clause_list_id rest]

/-- Bit-array-segment version of `to_cps_id`. -/
theorem cps_segment_list_id (segs : List BitArraySegment) :
    cps_segment_list segs idCont = fnconv_segment_list segs := by
  cases segs with
  | nil => simp [cps_segment_list, fnconv_segment_list]
  | cons seg rest =>
      cases seg with
      | mk l v os =>
          simp [cps_segment_list, fnconv_segment_list, to_cps_id v, cps_option_list_id os,
            cps_segment_list_id rest]

/-- Bit-array-option version of `to_cps_id`. -/
theorem cps_option_list_id (os : List BitArrayOption) :
    cps_option_list os idCont = fnconv_option_list os := by
  cases os with
  | nil => simp [cps_option_list, fnconv_option_list]
  | cons o rest =>
      cases o with
      | size l sf v =>
          simp [cps_option_list, fnconv_option_list, cps_bit_array_option, to_cps_id v,
            cps_option_list_id rest]
      | other tag l =>
          simp [cps_option_list, fnconv_option_list, cps_bit_array_option,
            cps_option_list_id rest]

/-- Base-record version of `to_cps_id`. -/
theorem cps_record_id (r : RecordBeingUpdated) :
    cps_record_being_updated r idCont = fnconv_record r := by
  cases r with
  | mk base l => simp [cps_record_being_updated, fnconv_record, to_cps_id base]

/-- Record-update-argument version of `to_cps_id`. -/
theorem cps_upd_arg_list_id (args : List UntypedRecordUpdateArg) :
    cps_upd_arg_list args idCont = fnconv_upd_arg_list args := by
  cases args with
  | nil => simp [cps_upd_arg_list, fnconv_upd_arg_list]
  | cons a rest =>
      cases a with
      | mk lb l v =>
          simp [cps_upd_arg_list, fnconv_upd_arg_list, cps_record_update_arg, to_cps_id v,
            cps_upd_arg_list_id rest]

end

/-! ### Claims -/

/-- C1: with the identity continuation `k(x) = x`, the pass is the identity
transform on every expression variant, except that function-literal
subexpressions still undergo the structural change of the function-literal
converter (the appended trailing `go` parameter and the rewired final body
statement), as `fnconv` states. -/
theorem claim_C1_identity_continuation (e : UntypedExpr) : to_cps e idCont = fnconv e :=
  to_cps_id e

/-- C2: the per-call continuation `body_k` built by `cps_fn` maps every
expression `v` to a call of a variable reference to the synthesized
parameter `go` with `v` as the sole positional unlabeled argument, at `v`'s
own location; and a function literal with body `[x]` converted with an
identity outer continuation yields the original arguments plus a trailing
parameter named `go` and body `[Call(Var "go", [x])]`. -/
theorem claim_C2_per_call_continuation :
    (∀ v : UntypedExpr,
        body_k v = .call v.location (.var v.location "go") [.mk none v.location v none]) ∧
    ∀ (fl xl : SrcSpan) (kd idx : Nat) (args : List UntypedArg) (ret : Option TypeAst)
      (xn : String),
      cps_fn (.fn fl kd idx args ⟨.expression (.var xl xn), []⟩ ret) idCont =
        .fn fl kd idx (args ++ [⟨fl, .named "go" fl, none⟩])
          ⟨.expression (.call xl (.var xl "go") [.mk none xl (.var xl xn) none]), []⟩ ret := by
  constructor
  · intro v
    simp [body_k]
  · intro fl xl kd idx args ret xn
    simp [cps_fn, rewire_final, cps_statement, to_cps, cps_atom, body_k, go_arg,
      UntypedExpr.location, idCont]

/-- C3 counterexample: for a function literal whose final statement is
`case y { _ -> a; _ -> b }`, the converted body's final expression is not a
case expression with unchanged subjects: the continuation also wraps the
subject (and the rebuilt case itself) in `Call(Var "go", [...])`, so the
subject `Call(Var "go", [y])` in the actual output differs from the
original subject `y`. -/
theorem claim_C3_counterexample :
    cps_fn (.fn ⟨0, 50⟩ 0 0 []
        ⟨.expression (.case ⟨10, 40⟩ [.var ⟨15, 16⟩ "y"]
            (some [.mk ⟨18, 22⟩ [⟨1⟩] [] none (.var ⟨20, 21⟩ "a"),
                   .mk ⟨28, 32⟩ [⟨2⟩] [] none (.var ⟨30, 31⟩ "b")])), []⟩ none) idCont =
      .fn ⟨0, 50⟩ 0 0 [go_arg ⟨0, 50⟩]
        ⟨.expression (.call ⟨10, 40⟩ (.var ⟨10, 40⟩ "go")
            [.mk none ⟨10, 40⟩
              (.case ⟨10, 40⟩
                [.call ⟨15, 16⟩ (.var ⟨15, 16⟩ "go")
                  [.mk none ⟨15, 16⟩ (.var ⟨15, 16⟩ "y") none]]
                (some [.mk ⟨18, 22⟩ [⟨1⟩] [] none
                        (.call ⟨20, 21⟩ (.var ⟨20, 21⟩ "go")
                          [.mk none ⟨20, 21⟩ (.var ⟨20, 21⟩ "a") none]),
                       .mk ⟨28, 32⟩ [⟨2⟩] [] none
                        (.call ⟨30, 31⟩ (.var ⟨30, 31⟩ "go")
                          [.mk none ⟨30, 31⟩ (.var ⟨30, 31⟩ "b") none])]))
              none]), []⟩ none ∧
    (UntypedExpr.call ⟨15, 16⟩ (.var ⟨15, 16⟩ "go")
        [.mk none ⟨15, 16⟩ (.var ⟨15, 16⟩ "y") none]) ≠ .var ⟨15, 16⟩ "y" := by
  constructor
  · simp [cps_fn, rewire_final, cps_statement, to_cps, cps_case, cps_atom, to_cps_list,
      cps_clause_list, body_k, go_arg, UntypedExpr.location, idCont]
  · exact fun hh => UntypedExpr.noConfusion hh

/-- C3 amended: for a function literal whose final statement is
`case y { _ -> a; _ -> b }` (with `y`, `a`, `b` variables), `cps_fn` with an
identity outer continuation rewires the two clause bodies to
`Call(Var "go", [a])` and `Call(Var "go", [b])` as claimed, but it also
wraps each subject as `Call(Var "go", [y])` and wraps the rebuilt case as a
whole in `Call(Var "go", [...])`, so the final statement is that outer call
rather than a case with unchanged subjects. -/
theorem claim_C3_amended (fl cl yl al bl c1l c2l : SrcSpan) (kd idx : Nat)
    (args : List UntypedArg) (ret : Option TypeAst) (yn an bn : String)
    (p1 p2 : List Pattern) (ap1 ap2 : List (List Pattern)) (g1 g2 : Option Guard) :
    cps_fn (.fn fl kd idx args
        ⟨.expression (.case cl [.var yl yn]
            (some [.mk c1l p1 ap1 g1 (.var al an), .mk c2l p2 ap2 g2 (.var bl bn)])), []⟩
        ret) idCont =
      .fn fl kd idx (args ++ [go_arg fl])
        ⟨.expression (.call cl (.var cl "go")
            [.mk none cl
              (.case cl [.call yl (.var yl "go") [.mk none yl (.var yl yn) none]]
                (some [.mk c1l p1 ap1 g1
                        (.call al (.var al "go") [.mk none al (.var al an) none]),
                       .mk c2l p2 ap2 g2
                        (.call bl (.var bl "go") [.mk none bl (.var bl bn) none])]))
              none]), []⟩ ret := by
  simp [cps_fn, rewire_final, cps_statement, to_cps, cps_case, cps_atom, to_cps_list,
    cps_clause_list, body_k, go_arg, UntypedExpr.location, idCont]

/-- C4 counterexample: the synthesized continuation parameter is the fixed
literal `go`, so for a function literal that already has an argument named
`go` the injected parameter collides with it: the output's two arguments
bind the same name. -/
theorem claim_C4_counterexample :
    cps_fn (.fn ⟨0, 30⟩ 0 0 [⟨⟨3, 10⟩, .named "go" ⟨3, 5⟩, none⟩]
        ⟨.expression (.var ⟨20, 21⟩ "x"), []⟩ none) idCont =
      .fn ⟨0, 30⟩ 0 0 [⟨⟨3, 10⟩, .named "go" ⟨3, 5⟩, none⟩, go_arg ⟨0, 30⟩]
        ⟨.expression (.call ⟨20, 21⟩ (.var ⟨20, 21⟩ "go")
            [.mk none ⟨20, 21⟩ (.var ⟨20, 21⟩ "x") none]), []⟩ none ∧
    (go_arg ⟨0, 30⟩).boundName
      = UntypedArg.boundName ⟨⟨3, 10⟩, .named "go" ⟨3, 5⟩, none⟩ := by
  constructor
  · simp [cps_fn, rewire_final, cps_statement, to_cps, cps_atom, body_k, go_arg,
      UntypedExpr.location, idCont]
  · rfl

/-- C4 amended: the synthesized parameter is always the fixed name `go`
(appended last), so it is distinct from every existing binding of the
argument list exactly when no argument already binds `go`; for such inputs
no collision with the argument list occurs.  (Bindings introduced by body
patterns live outside the code under verification and are modelled
abstractly, so the no-collision statement is scoped to the argument
list.) -/
theorem claim_C4_amended (l : SrcSpan) (kd idx : Nat) (args : List UntypedArg)
    (s : UntypedStatement) (t : List UntypedStatement) (ret : Option TypeAst)
    (hgo : ∀ a ∈ args, UntypedArg.boundName a ≠ some "go") :
    (cps_fn_built l kd idx args s t ret).fnArguments = args ++ [go_arg l] ∧
    (go_arg l).boundName = some "go" ∧
    ∀ a ∈ args, UntypedArg.boundName a ≠ (go_arg l).boundName := by
  refine ⟨by simp [cps_fn_built, UntypedExpr.fnArguments], rfl, ?_⟩
  intro a ha
  have hne := hgo a ha
  simpa [go_arg, UntypedArg.boundName, ArgNames.boundName] using hne

/-- C4 witness: a function literal with one argument `x` (which does not
bind `go`), discharging the hypothesis of the amended claim. -/
theorem claim_C4_witness :
    (cps_fn_built ⟨0, 9⟩ 0 0 [⟨⟨1, 2⟩, .named "x" ⟨1, 2⟩, none⟩]
        (.expression (.var ⟨5, 6⟩ "x")) [] none).fnArguments
      = [⟨⟨1, 2⟩, .named "x" ⟨1, 2⟩, none⟩, go_arg ⟨0, 9⟩] ∧
    (go_arg ⟨0, 9⟩).boundName = some "go" :=
  ⟨(claim_C4_amended ⟨0, 9⟩ 0 0 [⟨⟨1, 2⟩, .named "x" ⟨1, 2⟩, none⟩]
      (.expression (.var ⟨5, 6⟩ "x")) [] none (by decide)).1,
   (claim_C4_amended ⟨0, 9⟩ 0 0 [⟨⟨1, 2⟩, .named "x" ⟨1, 2⟩, none⟩]
      (.expression (.var ⟨5, 6⟩ "x")) [] none (by decide)).2.1⟩

/-- C5: for an input function literal with `n` declared arguments, the
literal built by `cps_fn` before the outer continuation is applied has
exactly `n + 1` arguments, with the synthesized continuation parameter
appearing last, after all originally declared arguments. -/
theorem claim_C5_parameter_count (l : SrcSpan) (kd idx : Nat) (args : List UntypedArg)
    (h : UntypedStatement) (t : List UntypedStatement) (ret : Option TypeAst) (k : Cont) :
    cps_fn (.fn l kd idx args ⟨h, t⟩ ret) k = k (cps_fn_built l kd idx args h t ret) ∧
    (cps_fn_built l kd idx args h t ret).fnArguments = args ++ [go_arg l] ∧
    (args ++ [go_arg l]).length = args.length + 1 := by
  refine ⟨by simp [cps_fn, cps_fn_built], by simp [cps_fn_built, UntypedExpr.fnArguments], ?_⟩
  simp

/-- C6: the literal built by `cps_fn` keeps the leading body statements
`s1..s(N-1)` structurally identical to the input's (they are not passed
through `to_cps` at all); only the final statement is replaced, by
`cps_statement` of the split-off last statement against `body_k`. -/
theorem claim_C6_tail_only_rewiring (l : SrcSpan) (kd idx : Nat) (args : List UntypedArg)
    (h : UntypedStatement) (t : List UntypedStatement) (ret : Option TypeAst) (k : Cont) :
    cps_fn (.fn l kd idx args ⟨h, t⟩ ret) k = k (cps_fn_built l kd idx args h t ret) ∧
    (cps_fn_built l kd idx args h t ret).fnBodyList =
      (h :: t).dropLast ++ [cps_statement (Vec1.split_off_last ⟨h, t⟩).2 body_k] := by
  constructor
  · simp [cps_fn, cps_fn_built]
  · simp [cps_fn_built, UntypedExpr.fnBodyList, rewire_final_toList, Vec1.split_off_last]

/-- C7: for every atomic expression (integer, float, string or variable
literal, and the placeholder) and every continuation `k`, `to_cps e k` is
exactly `k e`, with no further recursion into `e`. -/
theorem claim_C7_leaf_delivery (e : UntypedExpr) (k : Cont) (ha : isAtomic e = true) :
    to_cps e k = k e := by
  cases e <;> simp_all [isAtomic, to_cps, cps_atom]

/-- C7 witness: leaf delivery evaluated at a concrete integer literal and
the identity continuation. -/
theorem claim_C7_witness :
    isAtomic (.int ⟨0, 1⟩ "1") = true ∧
      to_cps (.int ⟨0, 1⟩ "1") idCont = idCont (.int ⟨0, 1⟩ "1") :=
  ⟨rfl, claim_C7_leaf_delivery (.int ⟨0, 1⟩ "1") idCont rfl⟩

/-- C8: a block rewrites every statement of its sequence — not only the last
one — via `cps_statement` with the same continuation `k`; and the statement
rewriter rewrites exactly the one expression slot of each statement kind
(inner expression, binding value, callback-sugar call), leaving every other
field unchanged. -/
theorem claim_C8_block_every_statement (l : SrcSpan) (h : UntypedStatement)
    (t : List UntypedStatement) (k : Cont) :
    to_cps (.block l ⟨h, t⟩) k = k (.block l ⟨cps_statement h k, cps_statement_list t k⟩) ∧
    cps_statement_list t k = t.map (fun s => cps_statement s k) ∧
    (∀ e, cps_statement (.expression e) k = .expression (to_cps e k)) ∧
    (∀ al p kd an v, cps_statement (.assignment (.mk al p kd an v)) k
        = .assignment (.mk al p kd an (to_cps v k))) ∧
    (∀ ul r c, cps_statement (.use_ (.mk ul r c)) k = .use_ (.mk ul r (to_cps c k))) := by
  refine ⟨by simp [to_cps, cps_block], cps_statement_list_map t k, ?_, ?_, ?_⟩
  · intro e
    simp [cps_statement]
  · intro al p kd an v
    simp [cps_statement]
  · intro ul r c
    simp [cps_statement]

/-- C9: for every composite variant and every continuation, `to_cps` applies
the continuation to a rebuilt node that has the same variant tag, the same
non-expression fields (location, labels, indices, operator and kind tags,
option kinds) and the same number of child expression slots as the input. -/
theorem claim_C9_shape_preservation (e : UntypedExpr) (k : Cont) (hc : Composite e = true) :
    to_cps e k = k (rebuilt_node e k) ∧ sameShape e (rebuilt_node e k) := by
  cases e with
  | int l v => simp [Composite] at hc
  | float l v => simp [Composite] at hc
  | string l v => simp [Composite] at hc
  | var l n => simp [Composite] at hc
  | placeholder l => simp [Composite] at hc
  | fn l kd idx args body ret => simp [Composite] at hc
  | block l sts =>
      cases sts with
      | mk h t =>
          exact ⟨by simp [to_cps, cps_block, rebuilt_node],
            by simp [sameShape, rebuilt_node, Vec1.toList, cps_statement_list_length,
              cps_statement_list_kindTag, cps_statement_kindTag]⟩
  | list l es t =>
      cases t with
      | none =>
          exact ⟨by simp [to_cps, cps_list, rebuilt_node],
            by simp [sameShape, rebuilt_node, to_cps_list_length]⟩
      | some x =>
          exact ⟨by simp [to_cps, cps_list, rebuilt_node],
            by simp [sameShape, rebuilt_node, to_cps_list_length]⟩
  | tuple l es =>
      exact ⟨by simp [to_cps, cps_tuple, rebuilt_node],
        by simp [sameShape, rebuilt_node, to_cps_list_length]⟩
  | bitArray l segs =>
      exact ⟨by simp [to_cps, cps_bit_array, rebuilt_node],
        by simp [sameShape, rebuilt_node, cps_segment_list_length, cps_segment_list_locs,
          cps_segment_list_optionKinds]⟩
  | case l subs cls =>
      cases cls with
      | none =>
          exact ⟨by simp [to_cps, cps_case, rebuilt_node],
            by simp [sameShape, rebuilt_node, to_cps_list_length]⟩
      | some cs =>
          exact ⟨by simp [to_cps, cps_case, rebuilt_node],
            by simp [sameShape, rebuilt_node, to_cps_list_length, cps_clause_list_length,
              cps_clause_list_frames]⟩
  | call l f args =>
      exact ⟨by simp [to_cps, cps_call, rebuilt_node],
        by simp [sameShape, rebuilt_node, cps_call_arg_list_length, cps_call_arg_list_labels,
          cps_call_arg_list_locs]⟩
  | binOp l n a b =>
      exact ⟨by simp [to_cps, cps_bin_op, rebuilt_node], by simp [sameShape, rebuilt_node]⟩
  | pipeLine es =>
      cases es with
      | mk h t =>
          exact ⟨by simp [to_cps, cps_pipe_line, rebuilt_node],
            by simp [sameShape, rebuilt_node, Vec1.toList, to_cps_list_length]⟩
  | fieldAccess l ll lb c =>
      exact ⟨by simp [to_cps, cps_field_access, rebuilt_node],
        by simp [sameShape, rebuilt_node]⟩
  | tupleIndex l i t =>
      exact ⟨by simp [to_cps, cps_tuple_index, rebuilt_node],
        by simp [sameShape, rebuilt_node]⟩
  | recordUpdate l c r args =>
      exact ⟨by simp [to_cps, cps_record_update, rebuilt_node],
        by simp [sameShape, rebuilt_node, cps_record_being_updated_loc,
          cps_upd_arg_list_length, cps_upd_arg_list_labels, cps_upd_arg_list_locs]⟩
  | negateBool l v =>
      exact ⟨by simp [to_cps, cps_negate_bool, rebuilt_node], by simp [sameShape, rebuilt_node]⟩
  | negateInt l v =>
      exact ⟨by simp [to_cps, cps_negate_int, rebuilt_node], by simp [sameShape, rebuilt_node]⟩
  | todo l kd m =>
      cases m with
      | none =>
          exact ⟨by simp [to_cps, cps_todo, rebuilt_node], by simp [sameShape, rebuilt_node]⟩
      | some x =>
          exact ⟨by simp [to_cps, cps_todo, rebuilt_node], by simp [sameShape, rebuilt_node]⟩
  | panic l m =>
      cases m with
      | none =>
          exact ⟨by simp [to_cps, cps_panic, rebuilt_node], by simp [sameShape, rebuilt_node]⟩
      | some x =>
          exact ⟨by simp [to_cps, cps_panic, rebuilt_node], by simp [sameShape, rebuilt_node]⟩
  | echo l x =>
      cases x with
      | none =>
          exact ⟨by simp [to_cps, cps_echo, rebuilt_node], by simp [sameShape, rebuilt_node]⟩
      | some y =>
          exact ⟨by simp [to_cps, cps_echo, rebuilt_node], by simp [sameShape, rebuilt_node]⟩

/-- C9 witness: shape preservation evaluated at a concrete binary operation
and the identity continuation. -/
theorem claim_C9_witness :
    Composite (.binOp ⟨0, 3⟩ 0 (.var ⟨0, 1⟩ "x") (.var ⟨2, 3⟩ "y")) = true ∧
    (to_cps (.binOp ⟨0, 3⟩ 0 (.var ⟨0, 1⟩ "x") (.var ⟨2, 3⟩ "y")) idCont
        = idCont (rebuilt_node (.binOp ⟨0, 3⟩ 0 (.var ⟨0, 1⟩ "x") (.var ⟨2, 3⟩ "y")) idCont) ∧
      sameShape (.binOp ⟨0, 3⟩ 0 (.var ⟨0, 1⟩ "x") (.var ⟨2, 3⟩ "y"))
        (rebuilt_node (.binOp ⟨0, 3⟩ 0 (.var ⟨0, 1⟩ "x") (.var ⟨2, 3⟩ "y")) idCont)) :=
  ⟨rfl, claim_C9_shape_preservation (.binOp ⟨0, 3⟩ 0 (.var ⟨0, 1⟩ "x") (.var ⟨2, 3⟩ "y"))
    idCont rfl⟩

/-- C10: when the dispatcher meets a function literal, the surrounding
continuation `k` is never threaded into the literal's body: the literal is
converted to `cps_fn_built` — a value independent of `k` in which the
argument list gains the trailing `go` parameter and only the split-off
final statement is rewritten against the freshly built continuation
`body_k` that calls that parameter — and `k` is applied exactly once, to
the converted literal as a whole. -/
theorem claim_C10_nested_literal (l : SrcSpan) (kd idx : Nat) (args : List UntypedArg)
    (h : UntypedStatement) (t : List UntypedStatement) (ret : Option TypeAst) (k : Cont) :
    to_cps (.fn l kd idx args ⟨h, t⟩ ret) k = k (cps_fn_built l kd idx args h t ret) ∧
    cps_fn_built l kd idx args h t ret
      = .fn l kd idx (args ++ [go_arg l]) (rewire_final h t) ret ∧
    rewire_final h t =
      Vec1.from_vec_push (Vec1.split_off_last ⟨h, t⟩).1
        (cps_statement (Vec1.split_off_last ⟨h, t⟩).2 body_k) :=
  ⟨by simp [to_cps, cps_fn, cps_fn_built], rfl, rewire_final_spec h t⟩

end GleamCps
